import Mathlib

/-!
Shallow embedding of the Course Token Marketplace backend
(`src/main.py`, `src/schemas.py`).

Modelling conventions:
* MongoDB collections become maps / lists inside a `MarketState`:
  - `course` and `coursetoken` are keyed by the course id string;
  - `balance` is keyed by the (user_id, course_id) pair (the code looks
    documents up by exactly that pair, one record per pair);
  - `order` and `purchase` are lists, a document's ObjectId being its index.
* Token quantities are `Int` (the code stores Python ints and uses `$inc`,
  which can drive them negative).  USD prices and revenue are `Rat`,
  the exact-arithmetic idealization of Python floats: `0.01` is `1/100`,
  `0.005` is `5/1000`, and `int(x)` is truncation (`Int.tdiv` for the
  division by 100).
* `side` and `status` are the literal strings stored in MongoDB
  (`"buy"`/`"sell"`, `"open"`/`"filled"`/`"cancelled"`); the code compares
  them as strings.
* A pydantic `Balance` document is created without a `reserved` field;
  since `$inc` treats a missing field as `0`, a missing field is modelled
  as the value `0`.
* `HTTPException(status, detail)` becomes an `ApiError` value; every
  `raise` in the source happens before any database write, so an error
  result leaves the state unchanged (`Except` carries no new state).
-/

/-- The `course` collection document fields used by the handlers
(`schemas.Course` restricted to what `main.py` reads). -/
structure CourseRec where
  price_usd : Rat
  token_symbol : String
  token_supply : Int
  treasury_eth_address : String
deriving DecidableEq

/-- The `coursetoken` collection document (`schemas.CourseToken`). -/
structure CourseTokenRec where
  course_id : String
  token_symbol : String
  total_supply : Int
  circulating_supply : Int
  treasury_eth_address : String
  treasury_token_balance : Int
  treasury_revenue_usd : Rat
deriving DecidableEq

/-- A `balance` document's mutable fields (`schemas.Balance` plus the
`reserved` field that `$inc` creates on demand). -/
structure BalanceRec where
  amount : Int
  reserved : Int
deriving DecidableEq

/-- An `order` collection document (`schemas.Order`). -/
structure OrderRec where
  course_id : String
  user_id : String
  side : String
  price_usd : Rat
  amount : Int
  status : String
deriving DecidableEq

/-- A `purchase` collection document (`schemas.Purchase`). -/
structure PurchaseRec where
  user_id : String
  course_id : String
  price_usd : Rat
  status : String
deriving DecidableEq

/-- The database state: one field per MongoDB collection touched by the
ledger/matching handlers. -/
structure MarketState where
  courses : String → Option CourseRec
  tokens : String → Option CourseTokenRec
  balances : String → String → Option BalanceRec
  orders : List OrderRec
  purchases : List PurchaseRec

/-- An `HTTPException(status_code, detail)`. -/
structure ApiError where
  status_code : Nat
  detail : String
deriving DecidableEq

/-- Point update of a string-keyed collection. -/
def setMap {α : Type} (m : String → Option α) (k : String) (v : α) :
    String → Option α :=
  fun k' => if k' = k then some v else m k'

/-- Point update of the balance collection at a (user, course) key. -/
def setBal (m : String → String → Option BalanceRec) (u c : String)
    (v : BalanceRec) : String → String → Option BalanceRec :=
  fun u' c' => if u' = u ∧ c' = c then some v else m u' c'

/-- The empty database. -/
def initState : MarketState :=
  { courses := fun _ => none
    tokens := fun _ => none
    balances := fun _ _ => none
    orders := []
    purchases := [] }

/-- `POST /api/courses` (`create_course` in `main.py`): records the course
and creates its `coursetoken` record with the full supply in treasury. -/
def create_course (s : MarketState) (course_id : String) (course : CourseRec) :
    MarketState :=
  { s with
    courses := setMap s.courses course_id course
    tokens := setMap s.tokens course_id
      { course_id := course_id
        token_symbol := course.token_symbol
        total_supply := course.token_supply
        circulating_supply := 0
        treasury_eth_address := course.treasury_eth_address
        treasury_token_balance := course.token_supply
        treasury_revenue_usd := 0 } }

/-- Result of `purchase_course`: `{"purchase_id": ..., "tokens_awarded": ...,
"price_usd": ...}` (the purchase id is the new document's index). -/
structure PurchaseResult where
  purchase_id : Nat
  tokens_awarded : Int
  price_usd : Rat
deriving DecidableEq

/-- `POST /api/courses/{course_id}/purchase` (`purchase_course` in
`main.py`).  Looks up the course and its token record, records the
purchase, allocates `max(1, int(total_supply * 0.01))` tokens from the
treasury (clamped to the remaining treasury balance), credits the buyer's
balance, and returns the award. -/
def purchase_course (s : MarketState) (course_id user_id : String) :
    Except ApiError (MarketState × PurchaseResult) :=
  match s.courses course_id with
  | none => .error ⟨404, "Course not found"⟩
  | some course =>
    match s.tokens course_id with
    | none => .error ⟨500, "Token record missing for course"⟩
    | some token =>
      let price := course.price_usd
      -- Record purchase
      let purchases' := s.purchases ++ [⟨user_id, course_id, price, "paid"⟩]
      -- allocate = max(1, int(token["total_supply"] * 0.01)),
      -- then clamped to the treasury balance if that is smaller
      let requested := max 1 (token.total_supply.tdiv 100)
      let allocate :=
        if token.treasury_token_balance < requested then
          token.treasury_token_balance
        else requested
      let token' :=
        { token with
          circulating_supply := token.circulating_supply + allocate
          treasury_token_balance := token.treasury_token_balance - allocate
          treasury_revenue_usd := token.treasury_revenue_usd + price }
      -- Credit buyer balance ($inc on an existing document, otherwise a
      -- fresh Balance document, whose reserved field is absent, i.e. 0)
      let balances' :=
        match s.balances user_id course_id with
        | some bal =>
          setBal s.balances user_id course_id
            { bal with amount := bal.amount + allocate }
        | none =>
          setBal s.balances user_id course_id ⟨allocate, 0⟩
      .ok ({ s with
              purchases := purchases'
              tokens := setMap s.tokens course_id token'
              balances := balances' },
           { purchase_id := s.purchases.length
             tokens_awarded := allocate
             price_usd := price })

/-- `POST /api/orders` (`place_order` in `main.py`).  Validates the course,
for a sell order checks and reserves the seller's balance, then records the
order; returns the new order's id (its index). -/
def place_order (s : MarketState) (order : OrderRec) :
    Except ApiError (MarketState × Nat) :=
  match s.courses order.course_id with
  | none => .error ⟨404, "Course not found"⟩
  | some _ =>
    if order.side = "sell" then
      match s.balances order.user_id order.course_id with
      | none => .error ⟨400, "Insufficient token balance"⟩
      | some bal =>
        if bal.amount < order.amount then
          .error ⟨400, "Insufficient token balance"⟩
        else
          -- lock tokens by moving amount into the reserved field
          .ok ({ s with
                  balances := setBal s.balances order.user_id order.course_id
                    { bal with
                      amount := bal.amount - order.amount
                      reserved := bal.reserved + order.amount }
                  orders := s.orders ++ [order] },
               s.orders.length)
    else
      .ok ({ s with orders := s.orders ++ [order] }, s.orders.length)

/-- Result of `match_trade`: `{"filled_amount": ..., "price_usd": ...}`. -/
structure TradeResult where
  filled_amount : Int
  price_usd : Rat
deriving DecidableEq

/-- `POST /api/trades` (`match_trade` in `main.py`).  Looks up both orders,
validates sides and course, fills `min(req.amount, buy.amount, sell.amount)`
at the sell order's price, decrements both orders' open amounts, releases
the seller's reserved tokens to the buyer's available balance, and accrues
the 0.5% fee into the course's treasury revenue. -/
def match_trade (s : MarketState) (buy_order_id sell_order_id : Nat)
    (req_amount : Int) : Except ApiError (MarketState × TradeResult) :=
  match s.orders[buy_order_id]?, s.orders[sell_order_id]? with
  | some buyO, some sellO =>
    if buyO.side ≠ "buy" ∨ sellO.side ≠ "sell" then
      .error ⟨400, "Invalid order sides"⟩
    else if buyO.course_id ≠ sellO.course_id then
      .error ⟨400, "Course mismatch"⟩
    else
      let amount := min req_amount (min buyO.amount sellO.amount)
      let price := sellO.price_usd  -- simple: execute at sell price
      -- Update open quantities
      let orders' :=
        (s.orders.set sell_order_id
            { sellO with amount := sellO.amount - amount }).set buy_order_id
          { buyO with amount := buyO.amount - amount }
      -- Release seller reserved (inserting a zero document if absent,
      -- exactly as the source does before the $inc) ...
      let sellerBal := (s.balances sellO.user_id sellO.course_id).getD ⟨0, 0⟩
      let balances1 := setBal s.balances sellO.user_id sellO.course_id
        { sellerBal with reserved := sellerBal.reserved - amount }
      -- ... and transfer to buyer (fresh document has no reserved field)
      let balances2 :=
        match balances1 buyO.user_id buyO.course_id with
        | some bal =>
          setBal balances1 buyO.user_id buyO.course_id
            { bal with amount := bal.amount + amount }
        | none =>
          setBal balances1 buyO.user_id buyO.course_id ⟨amount, 0⟩
      -- Track treasury revenue for the secondary market fee
      -- (update_one is a no-op when no coursetoken document matches)
      let tokens' :=
        match s.tokens buyO.course_id with
        | some t =>
          setMap s.tokens buyO.course_id
            { t with treasury_revenue_usd :=
                t.treasury_revenue_usd + (amount : Rat) * price * (5 / 1000) }
        | none => s.tokens
      .ok ({ s with orders := orders', balances := balances2, tokens := tokens' },
           { filled_amount := amount, price_usd := price })
  | _, _ => .error ⟨404, "Order not found"⟩

/-- The balance values observed for a (user, course) pair: a missing
document reads as zero (`$inc` and `bal.get(..., 0)` both treat it so). -/
def effBal (s : MarketState) (u c : String) : BalanceRec :=
  (s.balances u c).getD ⟨0, 0⟩

/-- A request-level action against the API. -/
inductive Act where
  | createCourse (course_id : String) (course : CourseRec)
  | purchase (course_id user_id : String)
  | placeOrder (order : OrderRec)
  | trade (buy_order_id sell_order_id : Nat) (req_amount : Int)

/-- One successful API call.  The side conditions on `createCourse` and
`placeOrder` are the pydantic validations (`token_supply: gt=0`,
`price_usd: ge=0` on `Course`; `amount: gt=0`, `price_usd: gt=0` and the
`side`/`status` literals on `Order`) that FastAPI enforces before the
handler body runs.  `trade`'s `amount: int` has no such constraint. -/
inductive Step : MarketState → Act → MarketState → Prop where
  | createCourse {s course_id course} :
      s.courses course_id = none →
      0 < course.token_supply → 0 ≤ course.price_usd →
      Step s (.createCourse course_id course) (create_course s course_id course)
  | purchase {s course_id user_id s' r} :
      purchase_course s course_id user_id = .ok (s', r) →
      Step s (.purchase course_id user_id) s'
  | placeOrder {s order s' oid} :
      0 < order.amount → 0 < order.price_usd →
      (order.side = "buy" ∨ order.side = "sell") →
      (order.status = "open" ∨ order.status = "filled" ∨
        order.status = "cancelled") →
      place_order s order = .ok (s', oid) →
      Step s (.placeOrder order) s'
  | trade {s buy_order_id sell_order_id req_amount s' r} :
      match_trade s buy_order_id sell_order_id req_amount = .ok (s', r) →
      Step s (.trade buy_order_id sell_order_id req_amount) s'

/-- States reachable from the empty database through the public
operations (course creation, purchase, order placement, trade matching).
Failed calls leave the database untouched, so they need no step. -/
inductive Reachable : MarketState → Prop where
  | init : Reachable initState
  | step {s a s'} : Reachable s → Step s a s' → Reachable s'

/-- `trade` actions whose requested amount is non-negative. -/
def Act.nonNegTrade : Act → Prop
  | .trade _ _ req_amount => 0 ≤ req_amount
  | _ => True

/-- States reachable when every trade request carries a non-negative
requested amount. -/
inductive ReachableNN : MarketState → Prop where
  | init : ReachableNN initState
  | step {s a s'} : ReachableNN s → Step s a s' → a.nonNegTrade → ReachableNN s'

/-! ### Helper lemmas about the store primitives -/

theorem setMap_same {α : Type} (m : String → Option α) (k : String) (v : α) :
    setMap m k v k = some v := by
  simp [setMap]

theorem setMap_ne {α : Type} (m : String → Option α) {k k' : String} (v : α)
    (h : k' ≠ k) : setMap m k v k' = m k' := by
  simp [setMap, h]

theorem setBal_same (m : String → String → Option BalanceRec) (u c : String)
    (v : BalanceRec) : setBal m u c v u c = some v := by
  simp [setBal]

theorem setBal_ne (m : String → String → Option BalanceRec) {u c u' c' : String}
    (v : BalanceRec) (h : ¬(u' = u ∧ c' = c)) : setBal m u c v u' c' = m u' c' := by
  simp only [setBal, if_neg h]

/-- The source's clamp `if treasury < requested: allocate = treasury` is a
minimum. -/
theorem if_clamp_eq_min (a b : Int) : (if b < a then b else a) = min a b := by
  rcases lt_or_le b a with h | h
  · simp [h, min_eq_right h.le]
  · simp [not_lt.mpr h, min_eq_left h]

/-- Replacing one element of a list changes a mapped sum by the delta of
that element's contribution. -/
theorem sum_map_set {α : Type} (f : α → Int) :
    ∀ (l : List α) (j : Nat) (b a : α), l[j]? = some b →
      ((l.set j a).map f).sum = (l.map f).sum - f b + f a := by
  intro l
  induction l with
  | nil => intro j b a h; simp at h
  | cons x xs ih =>
    intro j b a h
    cases j with
    | zero =>
      simp at h
      subst h
      simp only [List.set, List.map_cons, List.sum_cons]
      ring
    | succ n =>
      simp at h
      simp only [List.set, List.map_cons, List.sum_cons, ih n b a h]
      ring

/-- One element's contribution is at most the whole mapped sum when every
contribution is non-negative. -/
theorem le_sum_map {α : Type} (f : α → Int) :
    ∀ (l : List α) (j : Nat) (b : α), l[j]? = some b →
      (∀ x ∈ l, 0 ≤ f x) → f b ≤ (l.map f).sum := by
  intro l
  induction l with
  | nil => intro j b h; simp at h
  | cons x xs ih =>
    intro j b h hpos
    cases j with
    | zero =>
      simp at h
      subst h
      simp only [List.map_cons, List.sum_cons]
      have : 0 ≤ (xs.map f).sum := by
        apply List.sum_nonneg
        intro y hy
        obtain ⟨z, hz, rfl⟩ := List.mem_map.mp hy
        exact hpos z (List.mem_cons_of_mem _ hz)
      omega
    | succ n =>
      simp at h
      have := ih n b h (fun y hy => hpos y (List.mem_cons_of_mem _ hy))
      simp only [List.map_cons, List.sum_cons]
      have hx : 0 ≤ f x := hpos x (List.mem_cons_self x xs)
      omega

/-! ### C2: the purchase award formula -/

/-- C2: for every purchase of an existing course with an existing
CourseToken record, the call succeeds and the award (returned as
`tokens_awarded` and credited to the buyer's balance) equals
`min(max(1, floor(total_supply * 0.01)), treasury_token_balance_before)`
(`Int.tdiv _ 100` is the truncation the source's `int(... * 0.01)`
performs; it agrees with the floor for the positive supplies the API
creates); the award never exceeds the treasury balance, and an exhausted
treasury yields an award of 0 through the same success path. -/
theorem purchase_award_formula (s : MarketState) (course_id user_id : String)
    (course : CourseRec) (token : CourseTokenRec)
    (hc : s.courses course_id = some course)
    (ht : s.tokens course_id = some token) :
    ∃ s' r, purchase_course s course_id user_id = .ok (s', r) ∧
      r.tokens_awarded =
        min (max 1 (token.total_supply.tdiv 100)) token.treasury_token_balance ∧
      r.tokens_awarded ≤ token.treasury_token_balance ∧
      (effBal s' user_id course_id).amount
        = (effBal s user_id course_id).amount + r.tokens_awarded ∧
      (token.treasury_token_balance = 0 → r.tokens_awarded = 0) := by
  simp only [purchase_course, hc, ht]
  refine ⟨_, _, rfl, ?_, ?_, ?_, ?_⟩
  · exact if_clamp_eq_min _ _
  · rw [if_clamp_eq_min]
    exact min_le_right _ _
  · cases hb : s.balances user_id course_id with
    | none => simp [effBal, hb, setBal_same]
    | some bal => simp [effBal, hb, setBal_same]
  · intro h0
    rw [if_clamp_eq_min, h0]
    exact min_eq_right (le_max_of_le_left Int.one_nonneg) |>.trans rfl


theorem setBal_getD (m : String → String → Option BalanceRec)
    (u0 c0 : String) (v : BalanceRec) (u c : String) :
    (setBal m u0 c0 v u c).getD ⟨0, 0⟩
      = if u = u0 ∧ c = c0 then v else (m u c).getD ⟨0, 0⟩ := by
  by_cases h : u = u0 ∧ c = c0
  · rw [if_pos h, setBal, if_pos h, Option.getD_some]
  · rw [if_neg h, setBal_ne _ _ h]

theorem match_trade_ok_effects {s : MarketState} {bi si : Nat} {req : Int}
    {s' : MarketState} {r : TradeResult}
    (h : match_trade s bi si req = .ok (s', r)) :
    ∃ buyO sellO, s.orders[bi]? = some buyO ∧ s.orders[si]? = some sellO ∧
      buyO.side = "buy" ∧ sellO.side = "sell" ∧
      buyO.course_id = sellO.course_id ∧
      r = ⟨min req (min buyO.amount sellO.amount), sellO.price_usd⟩ ∧
      s'.courses = s.courses ∧
      s'.purchases = s.purchases ∧
      s'.orders = (s.orders.set si
          { sellO with amount := sellO.amount - r.filled_amount }).set bi
        { buyO with amount := buyO.amount - r.filled_amount } ∧
      (∀ u c,
        (effBal s' u c).amount = (effBal s u c).amount
          + (if u = buyO.user_id ∧ c = buyO.course_id then r.filled_amount else 0) ∧
        (effBal s' u c).reserved = (effBal s u c).reserved
          - (if u = sellO.user_id ∧ c = sellO.course_id then r.filled_amount else 0)) ∧
      (∀ t, s.tokens buyO.course_id = some t →
        s'.tokens = setMap s.tokens buyO.course_id
          { t with treasury_revenue_usd := t.treasury_revenue_usd
              + (r.filled_amount : Rat) * r.price_usd * (5 / 1000) }) ∧
      (s.tokens buyO.course_id = none → s'.tokens = s.tokens) := by
  cases hb : s.orders[bi]? with
  | none => simp [match_trade, hb] at h
  | some buyO =>
  cases hsl : s.orders[si]? with
  | none => simp [match_trade, hb, hsl] at h
  | some sellO =>
  simp only [match_trade, hb, hsl] at h
  by_cases hsides : buyO.side ≠ "buy" ∨ sellO.side ≠ "sell"
  · rw [if_pos hsides] at h
    exact Except.noConfusion h
  rw [if_neg hsides] at h
  push_neg at hsides
  obtain ⟨hbuy, hsell⟩ := hsides
  by_cases hcourse : buyO.course_id ≠ sellO.course_id
  · rw [if_pos hcourse] at h
    exact Except.noConfusion h
  rw [if_neg hcourse] at h
  push_neg at hcourse
  simp only [Except.ok.injEq, Prod.mk.injEq] at h
  obtain ⟨hs', hr⟩ := h
  subst hr
  refine ⟨buyO, sellO, rfl, rfl, hbuy, hsell, hcourse, rfl, ?_, ?_, ?_, ?_, ?_, ?_⟩
  · rw [← hs']
  · rw [← hs']
  · rw [← hs']
  · -- pointwise balance effect
    intro u c
    rw [← hs']
    simp only [effBal]
    cases hm1 : (setBal s.balances sellO.user_id sellO.course_id
        { (s.balances sellO.user_id sellO.course_id).getD ⟨0, 0⟩ with
          reserved := ((s.balances sellO.user_id sellO.course_id).getD ⟨0, 0⟩).reserved
            - min req (min buyO.amount sellO.amount) })
        buyO.user_id buyO.course_id with
    | none =>
      rw [setBal] at hm1
      by_cases hbs : buyO.user_id = sellO.user_id ∧ buyO.course_id = sellO.course_id
      · rw [if_pos hbs] at hm1
        exact Option.noConfusion hm1
      rw [if_neg hbs] at hm1
      simp only [hm1, setBal_getD]
      by_cases hbk : u = buyO.user_id ∧ c = buyO.course_id
      · obtain ⟨rfl, rfl⟩ := hbk
        have hsk : ¬(buyO.user_id = sellO.user_id ∧ buyO.course_id = sellO.course_id) := hbs
        simp [hsk, hm1]
      · by_cases hsk : u = sellO.user_id ∧ c = sellO.course_id
        · obtain ⟨rfl, rfl⟩ := hsk
          simp [hbk]
        · simp [hbk, hsk]
    | some bal =>
      simp only [hm1, setBal_getD]
      rw [setBal] at hm1
      by_cases hbs : buyO.user_id = sellO.user_id ∧ buyO.course_id = sellO.course_id
      · rw [if_pos hbs] at hm1
        injection hm1 with hbal
        simp only at hbal
        by_cases hbk : u = buyO.user_id ∧ c = buyO.course_id
        · obtain ⟨rfl, rfl⟩ := hbk
          have hsk : buyO.user_id = sellO.user_id ∧ buyO.course_id = sellO.course_id := hbs
          obtain ⟨he1, he2⟩ := hsk
          simp [he1, he2, ← hbal]
        · have hsk : ¬(u = sellO.user_id ∧ c = sellO.course_id) := by
            intro hk
            exact hbk ⟨hk.1.trans hbs.1.symm, hk.2.trans hbs.2.symm⟩
          simp [hbk, hsk]
      · rw [if_neg hbs] at hm1
        by_cases hbk : u = buyO.user_id ∧ c = buyO.course_id
        · obtain ⟨rfl, rfl⟩ := hbk
          have hsk : ¬(buyO.user_id = sellO.user_id ∧ buyO.course_id = sellO.course_id) := hbs
          simp [hsk, hm1]
        · by_cases hsk : u = sellO.user_id ∧ c = sellO.course_id
          · obtain ⟨rfl, rfl⟩ := hsk
            simp [hbk]
          · simp [hbk, hsk]
  · intro t ht
    rw [← hs']
    simp only [ht]
  · intro ht
    rw [← hs']
    simp only [ht]

theorem purchase_course_ok_effects {s : MarketState} {course_id user_id : String}
    {s' : MarketState} {r : PurchaseResult}
    (h : purchase_course s course_id user_id = .ok (s', r)) :
    ∃ course token, s.courses course_id = some course ∧
      s.tokens course_id = some token ∧
      r = ⟨s.purchases.length,
           if token.treasury_token_balance
               < max 1 (token.total_supply.tdiv 100) then
             token.treasury_token_balance
           else max 1 (token.total_supply.tdiv 100),
           course.price_usd⟩ ∧
      s'.courses = s.courses ∧
      s'.orders = s.orders ∧
      s'.purchases = s.purchases ++ [⟨user_id, course_id, course.price_usd, "paid"⟩] ∧
      s'.tokens = setMap s.tokens course_id
        { token with
          circulating_supply := token.circulating_supply + r.tokens_awarded
          treasury_token_balance := token.treasury_token_balance - r.tokens_awarded
          treasury_revenue_usd := token.treasury_revenue_usd + course.price_usd } ∧
      s'.balances = (match s.balances user_id course_id with
        | some bal => setBal s.balances user_id course_id
            { bal with amount := bal.amount + r.tokens_awarded }
        | none => setBal s.balances user_id course_id ⟨r.tokens_awarded, 0⟩) := by
  cases hc : s.courses course_id with
  | none => simp [purchase_course, hc] at h
  | some course =>
  cases ht : s.tokens course_id with
  | none => simp [purchase_course, hc, ht] at h
  | some token =>
  simp only [purchase_course, hc, ht, Except.ok.injEq, Prod.mk.injEq] at h
  obtain ⟨hs', hr⟩ := h
  subst hr
  refine ⟨course, token, rfl, rfl, rfl, ?_, ?_, ?_, ?_, ?_⟩ <;>
    rw [← hs']

theorem match_trade_ok_intro {s : MarketState} {bi si : Nat} (req : Int)
    {buyO sellO : OrderRec}
    (hb : s.orders[bi]? = some buyO) (hsl : s.orders[si]? = some sellO)
    (hbuy : buyO.side = "buy") (hsell : sellO.side = "sell")
    (hcourse : buyO.course_id = sellO.course_id) :
    ∃ s', match_trade s bi si req
      = .ok (s', ⟨min req (min buyO.amount sellO.amount), sellO.price_usd⟩) := by
  cases hmt : match_trade s bi si req with
  | error e =>
    exfalso
    simp only [match_trade, hb, hsl] at hmt
    rw [if_neg (by simp [hbuy, hsell]), if_neg (by simp [hcourse])] at hmt
    exact Except.noConfusion hmt
  | ok p =>
    obtain ⟨s', r⟩ := p
    obtain ⟨b2, s2, hb2, hs2, _, _, _, hr, _⟩ := match_trade_ok_effects hmt
    rw [hb] at hb2
    rw [hsl] at hs2
    cases hb2
    cases hs2
    exact ⟨s', by rw [hr]⟩

/-! ### C1: the supply conservation invariant -/

/-- `circulating_supply + treasury_token_balance = total_supply` for every
course token record. -/
def SupplyInv (s : MarketState) : Prop :=
  ∀ c t, s.tokens c = some t →
    t.circulating_supply + t.treasury_token_balance = t.total_supply

/-- C1: every successful `purchase_course` moves exactly the awarded
amount from treasury to circulating supply (leaving other courses'
records alone), every successful `match_trade` changes no supply field of
any course token record, and hence both operations preserve
`circulating_supply + treasury_token_balance = total_supply` for every
course. -/
theorem purchase_and_match_preserve_supply (s : MarketState) :
    (∀ course_id user_id s' r,
      purchase_course s course_id user_id = .ok (s', r) →
      (∃ t, s.tokens course_id = some t ∧
        ∃ t', s'.tokens course_id = some t' ∧
          t'.circulating_supply = t.circulating_supply + r.tokens_awarded ∧
          t'.treasury_token_balance
            = t.treasury_token_balance - r.tokens_awarded ∧
          t'.total_supply = t.total_supply) ∧
      (∀ c, c ≠ course_id → s'.tokens c = s.tokens c) ∧
      (SupplyInv s → SupplyInv s')) ∧
    (∀ buy_order_id sell_order_id req_amount s' r,
      match_trade s buy_order_id sell_order_id req_amount = .ok (s', r) →
      (∀ c t', s'.tokens c = some t' →
        ∃ t, s.tokens c = some t ∧
          t'.circulating_supply = t.circulating_supply ∧
          t'.treasury_token_balance = t.treasury_token_balance ∧
          t'.total_supply = t.total_supply) ∧
      (SupplyInv s → SupplyInv s')) := by
  constructor
  · intro course_id user_id s' r h
    obtain ⟨course, token, hc, ht, hr, hcs, hos, hps, htk, hbs⟩ :=
      purchase_course_ok_effects h
    refine ⟨⟨token, ht, ?_⟩, ?_, ?_⟩
    · refine ⟨{ token with
          circulating_supply := token.circulating_supply + r.tokens_awarded
          treasury_token_balance := token.treasury_token_balance - r.tokens_awarded
          treasury_revenue_usd := token.treasury_revenue_usd + course.price_usd },
        ?_, rfl, rfl, rfl⟩
      rw [htk]
      exact setMap_same _ _ _
    · intro c hcne
      rw [htk, setMap_ne _ _ hcne]
    · intro hinv c t' hl
      rw [htk] at hl
      by_cases hcc : c = course_id
      · subst hcc
        rw [setMap_same] at hl
        cases hl
        have := hinv c token ht
        simp only
        omega
      · rw [setMap_ne _ _ hcc] at hl
        exact hinv c t' hl
  · intro buy_order_id sell_order_id req_amount s' r h
    obtain ⟨buyO, sellO, hb, hsl, hbuy, hsell, hcourse, hr,
      hcs, hps, hos, hbal, htks, htkn⟩ := match_trade_ok_effects h
    have hfields : ∀ c t', s'.tokens c = some t' →
        ∃ t, s.tokens c = some t ∧
          t'.circulating_supply = t.circulating_supply ∧
          t'.treasury_token_balance = t.treasury_token_balance ∧
          t'.total_supply = t.total_supply := by
      intro c t' hl
      cases htk : s.tokens buyO.course_id with
      | none =>
        rw [htkn htk] at hl
        exact ⟨t', hl, rfl, rfl, rfl⟩
      | some t0 =>
        rw [htks t0 htk] at hl
        by_cases hcc : c = buyO.course_id
        · subst hcc
          rw [setMap_same] at hl
          cases hl
          exact ⟨t0, htk, rfl, rfl, rfl⟩
        · rw [setMap_ne _ _ hcc] at hl
          exact ⟨t', hl, rfl, rfl, rfl⟩
    refine ⟨hfields, ?_⟩
    intro hinv c t' hl
    obtain ⟨t, htl, h1, h2, h3⟩ := hfields c t' hl
    rw [h1, h2, h3]
    exact hinv c t htl

/-- The database state after a `place_order` request: an HTTP error is
raised before any write, so a failed request commits nothing. -/
def runPlace (s : MarketState) (order : OrderRec) : MarketState :=
  match place_order s order with
  | .ok (s', _) => s'
  | .error _ => s


theorem place_order_ok_effects {s : MarketState} {order : OrderRec}
    {s' : MarketState} {oid : Nat}
    (h : place_order s order = .ok (s', oid)) :
    ∃ course, s.courses order.course_id = some course ∧
      oid = s.orders.length ∧
      s'.orders = s.orders ++ [order] ∧
      s'.courses = s.courses ∧
      s'.tokens = s.tokens ∧
      s'.purchases = s.purchases ∧
      ((order.side = "sell" ∧
        ∃ bal, s.balances order.user_id order.course_id = some bal ∧
          order.amount ≤ bal.amount ∧
          s'.balances = setBal s.balances order.user_id order.course_id
            { bal with
              amount := bal.amount - order.amount
              reserved := bal.reserved + order.amount }) ∨
       (order.side ≠ "sell" ∧ s'.balances = s.balances)) := by
  cases hc : s.courses order.course_id with
  | none => simp [place_order, hc] at h
  | some course =>
  by_cases hside : order.side = "sell"
  · cases hbal : s.balances order.user_id order.course_id with
    | none => simp [place_order, hc, hside, hbal] at h
    | some bal =>
      by_cases hlt : bal.amount < order.amount
      · simp [place_order, hc, hside, hbal, hlt] at h
      · simp only [place_order, hc, hbal, hside, if_pos, Except.ok.injEq,
          Prod.mk.injEq, if_neg hlt] at h
        obtain ⟨hs', hoid⟩ := h
        subst hoid
        refine ⟨course, rfl, rfl, ?_, ?_, ?_, ?_,
          .inl ⟨hside, bal, rfl, not_lt.mp hlt, ?_⟩⟩ <;> rw [← hs']
  · simp only [place_order, hc, if_neg hside, Except.ok.injEq,
      Prod.mk.injEq] at h
    obtain ⟨hs', hoid⟩ := h
    subst hoid
    refine ⟨course, rfl, rfl, ?_, ?_, ?_, ?_, .inr ⟨hside, ?_⟩⟩ <;>
      rw [← hs']

/-- A buy order and a sell order can never be the same document. -/
theorem match_trade_ids_ne {s : MarketState} {bi si : Nat}
    {buyO sellO : OrderRec}
    (hb : s.orders[bi]? = some buyO) (hsl : s.orders[si]? = some sellO)
    (hbuy : buyO.side = "buy") (hsell : sellO.side = "sell") : bi ≠ si := by
  intro hEq
  rw [hEq, hsl] at hb
  cases hb
  rw [hbuy] at hsell
  exact absurd hsell (by decide)

/-! ### C3: partial-fill quantity accounting -/

/-- C3: a successful `match_trade` fills exactly
`min(requested_amount, buy.amount, sell.amount)` and decrements both
orders' open amounts by that quantity; the order documents stay recorded
(the order list keeps its length). -/
theorem match_trade_partial_fill {s : MarketState} {bi si : Nat} {req : Int}
    {s' : MarketState} {r : TradeResult} {buyO sellO : OrderRec}
    (hb : s.orders[bi]? = some buyO) (hsl : s.orders[si]? = some sellO)
    (h : match_trade s bi si req = .ok (s', r)) :
    r.filled_amount = min req (min buyO.amount sellO.amount) ∧
    s'.orders[bi]? = some { buyO with amount := buyO.amount - r.filled_amount } ∧
    s'.orders[si]? = some { sellO with amount := sellO.amount - r.filled_amount } ∧
    s'.orders.length = s.orders.length := by
  obtain ⟨buyO', sellO', hb', hsl', hbuy, hsell, hcourse, hr, _, _, hos, _, _, _⟩ :=
    match_trade_ok_effects h
  rw [hb] at hb'
  cases hb'
  rw [hsl] at hsl'
  cases hsl'
  have hne : bi ≠ si := match_trade_ids_ne hb hsl hbuy hsell
  have hbl : bi < s.orders.length := (List.getElem?_eq_some.mp hb).1
  have hsll : si < s.orders.length := (List.getElem?_eq_some.mp hsl).1
  refine ⟨by rw [hr], ?_, ?_, ?_⟩
  · rw [hos, List.getElem?_set_self (by simpa using hbl)]
  · rw [hos, List.getElem?_set_ne hne,
      List.getElem?_set_self (by simpa using hsll)]
  · rw [hos, List.length_set, List.length_set]

/-! ### C5: sell-order placement and reservation -/

/-- C5: placing a sell order fails with the InsufficientBalance error
(HTTP 400, "Insufficient token balance") and commits nothing when the
seller has no balance document or has available amount below the order
amount; otherwise it moves exactly the order amount from the seller's
available balance into `reserved` and appends the order. -/
theorem place_order_sell_reservation (s : MarketState) (order : OrderRec)
    (course : CourseRec) (hside : order.side = "sell")
    (hcourse : s.courses order.course_id = some course) :
    ((s.balances order.user_id order.course_id = none ∨
      (effBal s order.user_id order.course_id).amount < order.amount) →
      place_order s order = .error ⟨400, "Insufficient token balance"⟩ ∧
      runPlace s order = s) ∧
    (∀ bal, s.balances order.user_id order.course_id = some bal →
      order.amount ≤ bal.amount →
      place_order s order = .ok
        ({ s with
            balances := setBal s.balances order.user_id order.course_id
              { bal with
                amount := bal.amount - order.amount
                reserved := bal.reserved + order.amount }
            orders := s.orders ++ [order] }, s.orders.length)) := by
  constructor
  · intro hbad
    have herr : place_order s order = .error ⟨400, "Insufficient token balance"⟩ := by
      cases hbal : s.balances order.user_id order.course_id with
      | none => simp [place_order, hcourse, hside, hbal]
      | some bal =>
        rcases hbad with hnone | hlt
        · rw [hbal] at hnone
          exact Option.noConfusion hnone
        · rw [effBal, hbal, Option.getD_some] at hlt
          simp [place_order, hcourse, hside, hbal, hlt]
    exact ⟨herr, by rw [runPlace, herr]⟩
  · intro bal hbal hle
    simp [place_order, hcourse, hside, hbal, not_lt.mpr hle]

/-! ### C6: execution price and the missing price-compatibility check -/

/-- C6: for any buy/sell order pair of the same course — with no
constraint whatsoever relating the two orders' prices — `match_trade`
succeeds, and every successful match returns the sell order's price. -/
theorem match_trade_sell_price (s : MarketState) (bi si : Nat) (req : Int)
    (buyO sellO : OrderRec)
    (hb : s.orders[bi]? = some buyO) (hsl : s.orders[si]? = some sellO)
    (hbuy : buyO.side = "buy") (hsell : sellO.side = "sell")
    (hcourse : buyO.course_id = sellO.course_id) :
    (∃ s' r, match_trade s bi si req = .ok (s', r)) ∧
    (∀ s' r, match_trade s bi si req = .ok (s', r) →
      r.price_usd = sellO.price_usd) := by
  constructor
  · obtain ⟨s', h⟩ := match_trade_ok_intro req hb hsl hbuy hsell hcourse
    exact ⟨s', _, h⟩
  · intro s' r h
    obtain ⟨buyO', sellO', hb', hsl', _, _, _, hr, _⟩ := match_trade_ok_effects h
    rw [hsl] at hsl'
    cases hsl'
    rw [hr]

/-! ### C7: re-matching a fully filled pair is a no-op -/

/-- Every order in a reachable state has a non-negative open amount:
orders are placed with positive amounts, and a fill never exceeds an
order's remaining amount (this holds even for negative trade requests,
which can only increase amounts). -/
theorem orders_nonneg_reachable {s : MarketState} (h : Reachable s) :
    ∀ o ∈ s.orders, 0 ≤ o.amount := by
  induction h with
  | init =>
    intro o ho
    simp [initState] at ho
  | step _ hstep ih =>
    cases hstep with
    | createCourse _ _ _ =>
      intro o ho
      simp only [create_course] at ho
      exact ih o ho
    | purchase hp =>
      obtain ⟨_, _, _, _, _, _, hos, _, _, _⟩ := purchase_course_ok_effects hp
      intro o ho
      rw [hos] at ho
      exact ih o ho
    | placeOrder hamt _ _ _ hp =>
      obtain ⟨_, _, _, hos, _, _, _, _⟩ := place_order_ok_effects hp
      intro o ho
      rw [hos] at ho
      rcases List.mem_append.mp ho with ho' | ho'
      · exact ih o ho'
      · simp at ho'
        subst ho'
        exact hamt.le
    | trade hp =>
      rename_i bi0 si0 req0 r0
      obtain ⟨buyO, sellO, hb, hsl, _, _, _, hr, _, _, hos, _, _, _⟩ :=
        match_trade_ok_effects hp
      have hfb : r0.filled_amount ≤ buyO.amount := by
        rw [hr]
        show min req0 (min buyO.amount sellO.amount) ≤ buyO.amount
        omega
      have hfs : r0.filled_amount ≤ sellO.amount := by
        rw [hr]
        show min req0 (min buyO.amount sellO.amount) ≤ sellO.amount
        omega
      intro o ho
      rw [hos] at ho
      rcases List.mem_or_eq_of_mem_set ho with ho1 | ho1
      · rcases List.mem_or_eq_of_mem_set ho1 with ho2 | ho2
        · exact ih o ho2
        · subst ho2
          have hsa := ih sellO (List.getElem?_mem hsl)
          show 0 ≤ sellO.amount - r0.filled_amount
          omega
      · subst ho1
        have hba := ih buyO (List.getElem?_mem hb)
        show 0 ≤ buyO.amount - r0.filled_amount
        omega

/-- C7: once either order of a valid pair in a reachable state is fully
filled (open amount 0), matching the pair again with any non-negative
requested amount succeeds with `filled_amount = 0` and leaves every
balance record's amount and reserved values unchanged. -/
theorem match_trade_filled_pair_noop {s : MarketState} {bi si : Nat}
    {req : Int} {s' : MarketState} {r : TradeResult} {buyO sellO : OrderRec}
    (hreach : Reachable s)
    (hb : s.orders[bi]? = some buyO) (hsl : s.orders[si]? = some sellO)
    (h0 : buyO.amount = 0 ∨ sellO.amount = 0)
    (hreq : 0 ≤ req)
    (h : match_trade s bi si req = .ok (s', r)) :
    r.filled_amount = 0 ∧
    ∀ u c, (effBal s' u c).amount = (effBal s u c).amount ∧
      (effBal s' u c).reserved = (effBal s u c).reserved := by
  have hba : 0 ≤ buyO.amount :=
    orders_nonneg_reachable hreach buyO (List.getElem?_mem hb)
  have hsa : 0 ≤ sellO.amount :=
    orders_nonneg_reachable hreach sellO (List.getElem?_mem hsl)
  obtain ⟨buyO', sellO', hb', hsl', hbuy, hsell, hcourse, hr, _, _, _,
    hbal, _, _⟩ := match_trade_ok_effects h
  rw [hb] at hb'
  cases hb'
  rw [hsl] at hsl'
  cases hsl'
  have hf : r.filled_amount = 0 := by
    rw [hr]
    simp only
    omega
  refine ⟨hf, ?_⟩
  intro u c
  obtain ⟨h1, h2⟩ := hbal u c
  rw [hf] at h1 h2
  simp only [ite_self, add_zero, sub_zero] at h1 h2
  exact ⟨h1, h2⟩

/-! ### C8: secondary-market fee accrual -/

/-- C8: a successful `match_trade` on a course with a token record adds
exactly `filled_amount * price * 0.005` to that course's
`treasury_revenue_usd` and leaves `circulating_supply`,
`treasury_token_balance` and `total_supply` of every course unchanged. -/
theorem match_trade_fee_accrual {s : MarketState} {bi si : Nat} {req : Int}
    {s' : MarketState} {r : TradeResult} {buyO sellO : OrderRec}
    {t : CourseTokenRec}
    (hb : s.orders[bi]? = some buyO) (hsl : s.orders[si]? = some sellO)
    (ht : s.tokens buyO.course_id = some t)
    (h : match_trade s bi si req = .ok (s', r)) :
    s'.tokens buyO.course_id = some
      { t with treasury_revenue_usd := t.treasury_revenue_usd
          + (r.filled_amount : Rat) * r.price_usd * (5 / 1000) } ∧
    ∀ c t0 t1, s.tokens c = some t0 → s'.tokens c = some t1 →
      t1.circulating_supply = t0.circulating_supply ∧
      t1.treasury_token_balance = t0.treasury_token_balance ∧
      t1.total_supply = t0.total_supply := by
  obtain ⟨buyO', sellO', hb', hsl', hbuy, hsell, hcourse, hr, _, _, _, _,
    htks, htkn⟩ := match_trade_ok_effects h
  rw [hb] at hb'
  cases hb'
  rw [hsl] at hsl'
  cases hsl'
  have htok := htks t ht
  constructor
  · rw [htok]
    exact setMap_same _ _ _
  · intro c t0 t1 h0 h1
    rw [htok] at h1
    by_cases hcc : c = buyO.course_id
    · subst hcc
      rw [setMap_same] at h1
      rw [ht] at h0
      cases h0
      cases h1
      exact ⟨rfl, rfl, rfl⟩
    · rw [setMap_ne _ _ hcc] at h1
      rw [h0] at h1
      cases h1
      exact ⟨rfl, rfl, rfl⟩

/-! ### C9: negative requested amounts are accepted -/

/-- C9: `match_trade` performs no positivity check on the requested
amount: for a negative request below both orders' open amounts, the call
succeeds returning the negative request as `filled_amount`, both orders'
open amounts increase, the seller's reserved balance increases, and the
buyer's available balance decreases. -/
theorem match_trade_negative_request (s : MarketState) (bi si : Nat)
    (req : Int) (buyO sellO : OrderRec)
    (hb : s.orders[bi]? = some buyO) (hsl : s.orders[si]? = some sellO)
    (hbuy : buyO.side = "buy") (hsell : sellO.side = "sell")
    (hcourse : buyO.course_id = sellO.course_id)
    (hneg : req < 0) (h1 : req ≤ buyO.amount) (h2 : req ≤ sellO.amount) :
    ∃ s', match_trade s bi si req = .ok (s', ⟨req, sellO.price_usd⟩) ∧
      s'.orders[bi]? = some { buyO with amount := buyO.amount - req } ∧
      buyO.amount < buyO.amount - req ∧
      s'.orders[si]? = some { sellO with amount := sellO.amount - req } ∧
      sellO.amount < sellO.amount - req ∧
      (effBal s' sellO.user_id sellO.course_id).reserved
        = (effBal s sellO.user_id sellO.course_id).reserved - req ∧
      (effBal s sellO.user_id sellO.course_id).reserved
        < (effBal s' sellO.user_id sellO.course_id).reserved ∧
      (effBal s' buyO.user_id buyO.course_id).amount
        = (effBal s buyO.user_id buyO.course_id).amount + req ∧
      (effBal s' buyO.user_id buyO.course_id).amount
        < (effBal s buyO.user_id buyO.course_id).amount := by
  have hmin : min req (min buyO.amount sellO.amount) = req :=
    min_eq_left (le_min h1 h2)
  obtain ⟨s', h⟩ := match_trade_ok_intro req hb hsl hbuy hsell hcourse
  rw [hmin] at h
  obtain ⟨buyO', sellO', hb', hsl', _, _, _, hr, _, _, hos, hbal, _, _⟩ :=
    match_trade_ok_effects h
  rw [hb] at hb'
  cases hb'
  rw [hsl] at hsl'
  cases hsl'
  have hne : bi ≠ si := match_trade_ids_ne hb hsl hbuy hsell
  have hbl : bi < s.orders.length := (List.getElem?_eq_some.mp hb).1
  have hsll : si < s.orders.length := (List.getElem?_eq_some.mp hsl).1
  have hfa : (⟨req, sellO.price_usd⟩ : TradeResult).filled_amount = req := rfl
  refine ⟨s', h, ?_, by omega, ?_, by omega, ?_, ?_, ?_, ?_⟩
  · rw [hos, hfa, List.getElem?_set_self (by simpa using hbl)]
  · rw [hos, hfa, List.getElem?_set_ne hne,
      List.getElem?_set_self (by simpa using hsll)]
  · obtain ⟨_, hres⟩ := hbal sellO.user_id sellO.course_id
    rw [hfa, if_pos ⟨rfl, rfl⟩] at hres
    exact hres
  · obtain ⟨_, hres⟩ := hbal sellO.user_id sellO.course_id
    rw [hfa, if_pos ⟨rfl, rfl⟩] at hres
    omega
  · obtain ⟨hamt, _⟩ := hbal buyO.user_id buyO.course_id
    rw [hfa, if_pos ⟨rfl, rfl⟩] at hamt
    exact hamt
  · obtain ⟨hamt, _⟩ := hbal buyO.user_id buyO.course_id
    rw [hfa, if_pos ⟨rfl, rfl⟩] at hamt
    omega

/-! ### C10: order status is never mutated -/

/-- C10: no public operation ever mutates an order's `status` (or its
side, course, user or price): every existing order document keeps those
fields across every step — only `amount` is ever rewritten — and the only
step that adds orders is `placeOrder`, which stores the order exactly as
created. -/
theorem step_never_mutates_status {s : MarketState} {a : Act}
    {s' : MarketState} (hstep : Step s a s') :
    (∀ (i : Nat) (o : OrderRec), s.orders[i]? = some o →
      ∃ o' : OrderRec, s'.orders[i]? = some o' ∧
        o'.status = o.status ∧ o'.side = o.side ∧
        o'.course_id = o.course_id ∧ o'.user_id = o.user_id ∧
        o'.price_usd = o.price_usd) ∧
    (∀ order : OrderRec, a = .placeOrder order →
      ∀ (i : Nat) (o : OrderRec), s'.orders[i]? = some o →
        s.orders[i]? = some o ∨ o = order) := by
  cases hstep with
  | createCourse hfresh hpos hprice =>
    constructor
    · intro i o hi
      refine ⟨o, ?_, rfl, rfl, rfl, rfl, rfl⟩
      simpa [create_course] using hi
    · intro order hEq
      cases hEq
  | purchase h =>
    obtain ⟨course, token, hc, ht, hr, hcs, hos, hps, htk, hbs⟩ :=
      purchase_course_ok_effects h
    constructor
    · intro i o hi
      exact ⟨o, by rw [hos]; exact hi, rfl, rfl, rfl, rfl, rfl⟩
    · intro order hEq
      cases hEq
  | placeOrder hamt hprice hside hstatus h =>
    obtain ⟨course, hc, hoid, hos, _, _, _, _⟩ := place_order_ok_effects h
    constructor
    · intro i o hi
      have hlen : i < s.orders.length := (List.getElem?_eq_some.mp hi).1
      refine ⟨o, ?_, rfl, rfl, rfl, rfl, rfl⟩
      rw [hos, List.getElem?_append_left hlen]
      exact hi
    · rename_i order0
      intro order hEq
      cases hEq
      intro i o hi
      rw [hos] at hi
      rcases Nat.lt_or_ge i s.orders.length with hlt | hge
      · rw [List.getElem?_append_left hlt] at hi
        exact .inl hi
      · right
        rw [List.getElem?_append_right hge] at hi
        cases hk : i - s.orders.length with
        | zero =>
          rw [hk] at hi
          simp at hi
          exact hi.symm
        | succ n =>
          rw [hk] at hi
          simp at hi
  | trade h =>
    rename_i bi si req r0
    obtain ⟨buyO, sellO, hb, hsl, hbuy, hsell, hcourse, hr, _, _, hos, _, _, _⟩ :=
      match_trade_ok_effects h
    have hne := match_trade_ids_ne hb hsl hbuy hsell
    constructor
    · intro i o hi
      by_cases hib : i = bi
      · subst hib
        rw [hb] at hi
        cases hi
        refine ⟨{ buyO with amount := buyO.amount - r0.filled_amount },
          ?_, rfl, rfl, rfl, rfl, rfl⟩
        have hbl : i < s.orders.length := (List.getElem?_eq_some.mp hb).1
        rw [hos, List.getElem?_set_self (by simpa using hbl)]
      · by_cases his : i = si
        · subst his
          rw [hsl] at hi
          cases hi
          refine ⟨{ sellO with amount := sellO.amount - r0.filled_amount },
            ?_, rfl, rfl, rfl, rfl, rfl⟩
          have hsll : i < s.orders.length := (List.getElem?_eq_some.mp hsl).1
          rw [hos, List.getElem?_set_ne (fun hcontra => hib hcontra.symm),
            List.getElem?_set_self (by simpa using hsll)]
        · refine ⟨o, ?_, rfl, rfl, rfl, rfl, rfl⟩
          rw [hos, List.getElem?_set_ne (fun hcontra => hib hcontra.symm),
            List.getElem?_set_ne (fun hcontra => his hcontra.symm)]
          exact hi
    · intro order hEq
      cases hEq

/-! ### C4: non-negativity of balances (ledger invariant) -/

/-- The open amount an order contributes to the reserved tokens of the
pair (u, c): its amount if it is a sell order of user u in course c. -/
def sellContribution (u c : String) (o : OrderRec) : Int :=
  if o.side = "sell" ∧ o.user_id = u ∧ o.course_id = c then o.amount else 0

/-- Total open sell-order quantity of user u in course c. -/
def openSellTotal (orders : List OrderRec) (u c : String) : Int :=
  (orders.map (sellContribution u c)).sum

/-- The inductive ledger invariant: balances are non-negative, order
amounts are non-negative, each (user, course) reserved balance covers the
user's open sell orders, and treasuries are non-negative. -/
def LedgerInv (s : MarketState) : Prop :=
  (∀ u c, 0 ≤ (effBal s u c).amount ∧ 0 ≤ (effBal s u c).reserved) ∧
  (∀ o ∈ s.orders, 0 ≤ o.amount) ∧
  (∀ u c, openSellTotal s.orders u c ≤ (effBal s u c).reserved) ∧
  (∀ c t, s.tokens c = some t → 0 ≤ t.treasury_token_balance)

theorem ledgerInv_init : LedgerInv initState := by
  refine ⟨fun u c => ⟨le_refl 0, le_refl 0⟩, ?_, ?_, ?_⟩
  · intro o ho
    simp [initState] at ho
  · intro u c
    simp [openSellTotal, initState, effBal]
  · intro c t ht
    simp [initState] at ht

theorem ledgerInv_createCourse {s : MarketState} {course_id : String}
    {course : CourseRec} (hinv : LedgerInv s)
    (hpos : 0 < course.token_supply) :
    LedgerInv (create_course s course_id course) := by
  obtain ⟨h1, h2, h3, h4⟩ := hinv
  refine ⟨h1, h2, h3, ?_⟩
  intro c t ht
  simp only [create_course] at ht
  by_cases hcc : c = course_id
  · subst hcc
    rw [setMap_same] at ht
    cases ht
    exact hpos.le
  · rw [setMap_ne _ _ hcc] at ht
    exact h4 c t ht

theorem ledgerInv_purchase {s : MarketState} {course_id user_id : String}
    {s' : MarketState} {r : PurchaseResult} (hinv : LedgerInv s)
    (h : purchase_course s course_id user_id = .ok (s', r)) :
    LedgerInv s' := by
  obtain ⟨h1, h2, h3, h4⟩ := hinv
  obtain ⟨course, token, hc, ht, hr, hcs, hos, hps, htk, hbs⟩ :=
    purchase_course_ok_effects h
  have haw : 0 ≤ r.tokens_awarded ∧
      r.tokens_awarded ≤ token.treasury_token_balance := by
    have htr := h4 course_id token ht
    rw [hr]
    simp only
    constructor <;> [skip; skip] <;>
      rcases lt_or_le token.treasury_token_balance
        (max 1 (token.total_supply.tdiv 100)) with hcase | hcase <;>
      simp [hcase] <;> omega
  -- pointwise balance effect of the purchase
  have hpt : ∀ u c,
      (effBal s' u c).amount = (effBal s u c).amount
        + (if u = user_id ∧ c = course_id then r.tokens_awarded else 0) ∧
      (effBal s' u c).reserved = (effBal s u c).reserved := by
    intro u c
    cases hsb : s.balances user_id course_id with
    | none =>
      rw [hsb] at hbs
      simp only [effBal, hbs, setBal_getD]
      by_cases hk : u = user_id ∧ c = course_id
      · obtain ⟨rfl, rfl⟩ := hk
        simp [hsb]
      · simp [hk]
    | some bal =>
      rw [hsb] at hbs
      simp only [effBal, hbs, setBal_getD]
      by_cases hk : u = user_id ∧ c = course_id
      · obtain ⟨rfl, rfl⟩ := hk
        simp [hsb]
      · simp [hk]
  refine ⟨?_, ?_, ?_, ?_⟩
  · intro u c
    obtain ⟨ha, hrv⟩ := hpt u c
    obtain ⟨ha0, hr0⟩ := h1 u c
    rw [ha, hrv]
    constructor
    · by_cases hk : u = user_id ∧ c = course_id
      · rw [if_pos hk]
        omega
      · rw [if_neg hk]
        omega
    · exact hr0
  · intro o ho
    rw [hos] at ho
    exact h2 o ho
  · intro u c
    obtain ⟨_, hrv⟩ := hpt u c
    rw [hrv, hos]
    exact h3 u c
  · intro c t htl
    rw [htk] at htl
    by_cases hcc : c = course_id
    · subst hcc
      rw [setMap_same] at htl
      cases htl
      simp only
      omega
    · rw [setMap_ne _ _ hcc] at htl
      exact h4 c t htl

theorem ledgerInv_placeOrder {s : MarketState} {order : OrderRec}
    {s' : MarketState} {oid : Nat} (hinv : LedgerInv s)
    (hamt : 0 < order.amount)
    (h : place_order s order = .ok (s', oid)) :
    LedgerInv s' := by
  obtain ⟨h1, h2, h3, h4⟩ := hinv
  obtain ⟨course, hc, hoid, hos, hcs, htk, hps, hcases⟩ :=
    place_order_ok_effects h
  have hsum : ∀ u c, openSellTotal s'.orders u c
      = openSellTotal s.orders u c + sellContribution u c order := by
    intro u c
    rw [hos, openSellTotal, List.map_append, List.sum_append, openSellTotal]
    simp
  have horder2 : ∀ o ∈ s'.orders, 0 ≤ o.amount := by
    intro o ho
    rw [hos] at ho
    rcases List.mem_append.mp ho with ho | ho
    · exact h2 o ho
    · simp at ho
      subst ho
      exact hamt.le
  rcases hcases with ⟨hside, bal, hbal, hle, hbs⟩ | ⟨hside, hbs⟩
  · -- sell order: the reservation moves amount into reserved
    have hbal0 := h1 order.user_id order.course_id
    rw [effBal, hbal, Option.getD_some] at hbal0
    refine ⟨?_, horder2, ?_, ?_⟩
    · intro u c
      simp only [effBal, hbs, setBal_getD]
      by_cases hk : u = order.user_id ∧ c = order.course_id
      · rw [if_pos hk]
        simp only
        omega
      · rw [if_neg hk]
        exact h1 u c
    · intro u c
      rw [hsum]
      simp only [effBal, hbs, setBal_getD]
      by_cases hk : u = order.user_id ∧ c = order.course_id
      · obtain ⟨rfl, rfl⟩ := hk
        rw [if_pos ⟨rfl, rfl⟩, sellContribution, if_pos ⟨hside, rfl, rfl⟩]
        have h3k := h3 order.user_id order.course_id
        rw [effBal, hbal, Option.getD_some] at h3k
        simp only
        omega
      · rw [if_neg hk, sellContribution,
          if_neg (fun hcontra => hk ⟨hcontra.2.1.symm, hcontra.2.2.symm⟩)]
        have h3k := h3 u c
        rw [effBal] at h3k
        omega
    · intro c t htl
      rw [htk] at htl
      exact h4 c t htl
  · -- buy (or other-side) order: balances untouched
    refine ⟨?_, horder2, ?_, ?_⟩
    · intro u c
      simp only [effBal, hbs]
      exact h1 u c
    · intro u c
      rw [hsum, sellContribution, if_neg (fun hcontra => hside hcontra.1)]
      simp only [effBal, hbs]
      have h3k := h3 u c
      rw [effBal] at h3k
      omega
    · intro c t htl
      rw [htk] at htl
      exact h4 c t htl

theorem ledgerInv_trade_nonneg {s : MarketState} {bi si : Nat} {req : Int}
    {s' : MarketState} {r : TradeResult} (hinv : LedgerInv s)
    (hreq : 0 ≤ req)
    (h : match_trade s bi si req = .ok (s', r)) :
    LedgerInv s' := by
  obtain ⟨h1, h2, h3, h4⟩ := hinv
  obtain ⟨buyO, sellO, hb, hsl, hbuy, hsell, hcourse, hr, hcs, hps, hos,
    hbal, htks, htkn⟩ := match_trade_ok_effects h
  have hne : bi ≠ si := match_trade_ids_ne hb hsl hbuy hsell
  have hb0 : 0 ≤ buyO.amount := h2 _ (List.getElem?_mem hb)
  have hs0 : 0 ≤ sellO.amount := h2 _ (List.getElem?_mem hsl)
  have hfval : r.filled_amount = min req (min buyO.amount sellO.amount) := by
    rw [hr]
  have hf0 : 0 ≤ r.filled_amount := by rw [hfval]; omega
  have hfb : r.filled_amount ≤ buyO.amount := by rw [hfval]; omega
  have hfs : r.filled_amount ≤ sellO.amount := by rw [hfval]; omega
  have hcontrib_nonneg : ∀ u c, ∀ x ∈ s.orders, 0 ≤ sellContribution u c x := by
    intro u c x hx
    rw [sellContribution]
    by_cases hcond : x.side = "sell" ∧ x.user_id = u ∧ x.course_id = c
    · rw [if_pos hcond]
      exact h2 x hx
    · rw [if_neg hcond]
  have hsell_le_total : sellO.amount
      ≤ openSellTotal s.orders sellO.user_id sellO.course_id := by
    have hle := le_sum_map (sellContribution sellO.user_id sellO.course_id)
      s.orders si sellO hsl (hcontrib_nonneg _ _)
    rw [sellContribution, if_pos ⟨hsell, rfl, rfl⟩] at hle
    exact hle
  have hres_ge : r.filled_amount
      ≤ (effBal s sellO.user_id sellO.course_id).reserved :=
    le_trans (le_trans hfs hsell_le_total) (h3 _ _)
  have hsum : ∀ u c, openSellTotal s'.orders u c
      = openSellTotal s.orders u c - sellContribution u c sellO
        + sellContribution u c
          { sellO with amount := sellO.amount - r.filled_amount } := by
    intro u c
    rw [hos, openSellTotal, openSellTotal]
    have hb1 : (s.orders.set si
        { sellO with amount := sellO.amount - r.filled_amount })[bi]?
        = some buyO := by
      rw [List.getElem?_set_ne (Ne.symm hne)]
      exact hb
    rw [sum_map_set (sellContribution u c) _ bi buyO
        { buyO with amount := buyO.amount - r.filled_amount } hb1,
      sum_map_set (sellContribution u c) s.orders si sellO
        { sellO with amount := sellO.amount - r.filled_amount } hsl]
    have hcb : sellContribution u c buyO = 0 := by
      rw [sellContribution, if_neg]
      intro hcontra
      rw [hbuy] at hcontra
      exact absurd hcontra.1 (by decide)
    have hcb2 : sellContribution u c
        { buyO with amount := buyO.amount - r.filled_amount } = 0 := by
      rw [sellContribution, if_neg]
      intro hcontra
      have : buyO.side = "sell" := hcontra.1
      rw [hbuy] at this
      exact absurd this (by decide)
    rw [hcb, hcb2]
    ring
  refine ⟨?_, ?_, ?_, ?_⟩
  · intro u c
    obtain ⟨ha, hrv⟩ := hbal u c
    obtain ⟨ha0, hr0⟩ := h1 u c
    rw [ha, hrv]
    constructor
    · by_cases hk : u = buyO.user_id ∧ c = buyO.course_id
      · rw [if_pos hk]
        omega
      · rw [if_neg hk]
        omega
    · by_cases hk : u = sellO.user_id ∧ c = sellO.course_id
      · obtain ⟨rfl, rfl⟩ := hk
        rw [if_pos ⟨rfl, rfl⟩]
        omega
      · rw [if_neg hk]
        omega
  · intro o ho
    rw [hos] at ho
    rcases List.mem_or_eq_of_mem_set ho with ho1 | ho1
    · rcases List.mem_or_eq_of_mem_set ho1 with ho2 | ho2
      · exact h2 o ho2
      · subst ho2
        show 0 ≤ sellO.amount - r.filled_amount
        omega
    · subst ho1
      show 0 ≤ buyO.amount - r.filled_amount
      omega
  · intro u c
    rw [hsum]
    obtain ⟨_, hrv⟩ := hbal u c
    rw [hrv]
    have h3k := h3 u c
    by_cases hk : u = sellO.user_id ∧ c = sellO.course_id
    · obtain ⟨rfl, rfl⟩ := hk
      rw [if_pos ⟨rfl, rfl⟩, sellContribution, if_pos ⟨hsell, rfl, rfl⟩,
        sellContribution, if_pos ⟨hsell, rfl, rfl⟩]
      show openSellTotal s.orders sellO.user_id sellO.course_id - sellO.amount
          + (sellO.amount - r.filled_amount)
        ≤ (effBal s sellO.user_id sellO.course_id).reserved - r.filled_amount
      omega
    · rw [if_neg hk, sellContribution,
        if_neg (fun hcontra => hk ⟨hcontra.2.1.symm, hcontra.2.2.symm⟩),
        sellContribution,
        if_neg (fun hcontra => hk ⟨hcontra.2.1.symm, hcontra.2.2.symm⟩)]
      omega
  · intro c t htl
    cases htok : s.tokens buyO.course_id with
    | none =>
      rw [htkn htok] at htl
      exact h4 c t htl
    | some t0 =>
      rw [htks t0 htok] at htl
      by_cases hcc : c = buyO.course_id
      · subst hcc
        rw [setMap_same] at htl
        cases htl
        exact h4 _ t0 htok
      · rw [setMap_ne _ _ hcc] at htl
        exact h4 c t htl

theorem ledgerInv_reachableNN {s : MarketState} (h : ReachableNN s) :
    LedgerInv s := by
  induction h with
  | init => exact ledgerInv_init
  | step _ hstep hnn ih =>
    cases hstep with
    | createCourse hfresh hpos hprice => exact ledgerInv_createCourse ih hpos
    | purchase hp => exact ledgerInv_purchase ih hp
    | placeOrder hamt hprice hside hstatus hp =>
      exact ledgerInv_placeOrder ih hamt hp
    | trade hp => exact ledgerInv_trade_nonneg ih hnn hp

/-- C4 (amended): in every state reachable through the public operations
in which each `match_trade` request carries a non-negative requested
amount, every balance record has `amount ≥ 0` and `reserved ≥ 0`. -/
theorem reachableNN_balances_nonneg {s : MarketState} (h : ReachableNN s) :
    ∀ u c b, s.balances u c = some b → 0 ≤ b.amount ∧ 0 ≤ b.reserved := by
  intro u c b hbal
  have hinv := ledgerInv_reachableNN h
  have hb := hinv.1 u c
  rw [effBal, hbal, Option.getD_some] at hb
  exact hb

/-! ### A concrete execution trace (the spec's end-to-end scenario) -/

/-- The demo course: price 50 USD, token supply 1000. -/
def demoCourse : CourseRec := ⟨50, "CRS", 1000, "0xTREAS"⟩

/-- Commits a successful call's state (`initState` is a default for the
error case, never reached in the uses below). -/
def afterOk {α : Type} (e : Except ApiError (MarketState × α)) : MarketState :=
  match e with
  | .ok (st, _) => st
  | .error _ => initState

/-- Course "c1" created. -/
def demoS1 : MarketState := create_course initState "c1" demoCourse

/-- User "u1" bought the course (award 10 tokens). -/
def demoS2 : MarketState := afterOk (purchase_course demoS1 "c1" "u1")

def demoSellOrder : OrderRec := ⟨"c1", "u1", "sell", 2, 5, "open"⟩

/-- "u1" placed a sell order for 5 tokens at 2 USD (order 0). -/
def demoS3 : MarketState := afterOk (place_order demoS2 demoSellOrder)

def demoBuyOrder : OrderRec := ⟨"c1", "u2", "buy", 3, 5, "open"⟩

/-- "u2" placed a buy order for 5 tokens at 3 USD (order 1). -/
def demoS4 : MarketState := afterOk (place_order demoS3 demoBuyOrder)

/-- The two orders matched for 5 tokens (both fully filled). -/
def demoS5 : MarketState := afterOk (match_trade demoS4 1 0 5)

/-- Re-matching the fully filled pair: fills 0. -/
def demoRematch : MarketState := afterOk (match_trade demoS5 1 0 3)

def demoNegBuy : OrderRec := ⟨"c1", "u3", "buy", 3, 7, "open"⟩

/-- Alternative branch from `demoS3`: "u3" placed a buy order (order 1). -/
def demoNeg1 : MarketState := afterOk (place_order demoS3 demoNegBuy)

/-- Matching with requested amount -5: "u3" ends at balance -5. -/
def demoNeg2 : MarketState := afterOk (match_trade demoNeg1 1 0 (-5))

theorem reachable_demoS3 : Reachable demoS3 :=
  .step (.step (.step .init
      (@Step.createCourse initState "c1" demoCourse rfl (by decide) (by decide)))
      (@Step.purchase demoS1 "c1" "u1" demoS2 ⟨0, 10, 50⟩ rfl))
    (@Step.placeOrder demoS2 demoSellOrder demoS3 0
      (by decide) (by decide) (.inr rfl) (.inl rfl) rfl)

theorem demoNeg2_eq :
    match_trade demoNeg1 1 0 (-5) = .ok (demoNeg2, ⟨-5, 2⟩) := rfl

theorem reachable_demoNeg2 : Reachable demoNeg2 :=
  .step (.step reachable_demoS3
      (@Step.placeOrder demoS3 demoNegBuy demoNeg1 1
        (by decide) (by decide) (.inl rfl) (.inl rfl) rfl))
    (@Step.trade demoNeg1 1 0 (-5) demoNeg2 ⟨-5, 2⟩ demoNeg2_eq)

theorem demoNeg2_balances :
    demoNeg2.balances "u3" "c1" = some ⟨-5, 0⟩ := rfl

/-- C4 counterexample: the claim as stated is false — after creating a
course, a purchase by "u1", a sell order by "u1", a buy order by "u3" and
a `match_trade` call with requested amount -5 (all public operations),
"u3"'s balance record holds amount -5 < 0. -/
theorem reachable_balances_nonneg_counterexample :
    ¬ (∀ s : MarketState, Reachable s → ∀ u c b, s.balances u c = some b →
        0 ≤ b.amount ∧ 0 ≤ b.reserved) := by
  intro hclaim
  have hneg := hclaim demoNeg2 reachable_demoNeg2 "u3" "c1" ⟨-5, 0⟩
    demoNeg2_balances
  exact absurd hneg.1 (by decide)

/-! ### Concrete evaluations used by the witnesses -/

theorem demoS2_eq :
    purchase_course demoS1 "c1" "u1" = .ok (demoS2, ⟨0, 10, 50⟩) := rfl

theorem demoS5_eq :
    match_trade demoS4 1 0 5 = .ok (demoS5, ⟨5, 2⟩) := rfl

theorem demoRematch_eq :
    match_trade demoS5 1 0 3 = .ok (demoRematch, ⟨0, 2⟩) := rfl

theorem demoS4_buy_lookup : demoS4.orders[1]? = some demoBuyOrder := rfl

theorem demoS4_sell_lookup : demoS4.orders[0]? = some demoSellOrder := rfl

theorem demoS5_buy_lookup :
    demoS5.orders[1]? = some ⟨"c1", "u2", "buy", 3, 0, "open"⟩ := rfl

theorem demoS5_sell_lookup :
    demoS5.orders[0]? = some ⟨"c1", "u1", "sell", 2, 0, "open"⟩ := rfl

theorem demoNeg1_buy_lookup : demoNeg1.orders[1]? = some demoNegBuy := rfl

theorem demoNeg1_sell_lookup : demoNeg1.orders[0]? = some demoSellOrder := rfl

theorem demoS5_u2_balance : demoS5.balances "u2" "c1" = some ⟨5, 0⟩ := rfl

theorem demoS2_u1_balance : demoS2.balances "u1" "c1" = some ⟨10, 0⟩ := rfl

theorem demoS1_course : demoS1.courses "c1" = some demoCourse := rfl

theorem demoS1_token :
    demoS1.tokens "c1" = some ⟨"c1", "CRS", 1000, 0, "0xTREAS", 1000, 0⟩ := rfl

theorem demoS4_token :
    demoS4.tokens "c1" = some ⟨"c1", "CRS", 1000, 10, "0xTREAS", 990, 50⟩ := by
  have h : demoS4.tokens "c1"
      = some ⟨"c1", "CRS", 1000, 10, "0xTREAS", 990, 0 + 50⟩ := rfl
  rw [h, zero_add]

theorem reachable_of_reachableNN {s : MarketState} (h : ReachableNN s) :
    Reachable s := by
  induction h with
  | init => exact .init
  | step _ hstep _ ih => exact .step ih hstep

theorem reachableNN_demoS5 : ReachableNN demoS5 :=
  .step (.step (.step (.step (.step .init
      (@Step.createCourse initState "c1" demoCourse rfl (by decide) (by decide))
      True.intro)
      (@Step.purchase demoS1 "c1" "u1" demoS2 ⟨0, 10, 50⟩ demoS2_eq)
      True.intro)
      (@Step.placeOrder demoS2 demoSellOrder demoS3 0
        (by decide) (by decide) (.inr rfl) (.inl rfl) rfl)
      True.intro)
      (@Step.placeOrder demoS3 demoBuyOrder demoS4 1
        (by decide) (by decide) (.inl rfl) (.inl rfl) rfl)
      True.intro)
    (@Step.trade demoS4 1 0 5 demoS5 ⟨5, 2⟩ demoS5_eq)
    (by decide : (0 : Int) ≤ 5)

/-! ### Witnesses -/

/-- C1 witness: the supply invariant, true after creating the demo
course, still holds after the demo purchase. -/
theorem purchase_and_match_preserve_supply_witness : SupplyInv demoS2 :=
  ((purchase_and_match_preserve_supply demoS1).1 "c1" "u1" demoS2 ⟨0, 10, 50⟩
      demoS2_eq).2.2
    (by
      intro c t ht
      simp only [demoS1, create_course, initState] at ht
      by_cases hc : c = "c1"
      · subst hc
        rw [setMap_same] at ht
        cases ht
        decide
      · rw [setMap_ne _ _ hc] at ht
        exact Option.noConfusion ht)

/-- C2 witness: the demo purchase awards
`min(max(1, 1000 tdiv 100), 1000) = 10` tokens. -/
theorem purchase_award_formula_witness :
    ∃ s' r, purchase_course demoS1 "c1" "u1" = .ok (s', r) ∧
      r.tokens_awarded = min (max 1 ((1000 : Int).tdiv 100)) 1000 ∧
      r.tokens_awarded ≤ (1000 : Int) ∧
      (effBal s' "u1" "c1").amount
        = (effBal demoS1 "u1" "c1").amount + r.tokens_awarded ∧
      ((1000 : Int) = 0 → r.tokens_awarded = 0) :=
  purchase_award_formula demoS1 "c1" "u1" demoCourse
    ⟨"c1", "CRS", 1000, 0, "0xTREAS", 1000, 0⟩ demoS1_course demoS1_token

/-- C3 witness: the demo match fills min(5, 5, 5) = 5 and zeroes both
orders' amounts while keeping both documents. -/
theorem match_trade_partial_fill_witness :
    (⟨5, 2⟩ : TradeResult).filled_amount
        = min 5 (min demoBuyOrder.amount demoSellOrder.amount) ∧
    demoS5.orders[1]? = some { demoBuyOrder with
      amount := demoBuyOrder.amount - (⟨5, 2⟩ : TradeResult).filled_amount } ∧
    demoS5.orders[0]? = some { demoSellOrder with
      amount := demoSellOrder.amount - (⟨5, 2⟩ : TradeResult).filled_amount } ∧
    demoS5.orders.length = demoS4.orders.length :=
  @match_trade_partial_fill demoS4 1 0 5 demoS5 ⟨5, 2⟩ demoBuyOrder
    demoSellOrder demoS4_buy_lookup demoS4_sell_lookup demoS5_eq

/-- C4 witness: in the non-negative demo trace, "u2"'s record is
non-negative. -/
theorem reachableNN_balances_nonneg_witness :
    (0 : Int) ≤ (⟨5, 0⟩ : BalanceRec).amount ∧
    (0 : Int) ≤ (⟨5, 0⟩ : BalanceRec).reserved :=
  reachableNN_balances_nonneg reachableNN_demoS5 "u2" "c1" ⟨5, 0⟩
    demoS5_u2_balance

/-- C5 witness: the demo sell order moves 5 of "u1"'s 10 tokens into
reserved and appends the order. -/
theorem place_order_sell_reservation_witness :
    place_order demoS2 demoSellOrder = .ok
      ({ demoS2 with
          balances := setBal demoS2.balances "u1" "c1" ⟨5, 5⟩
          orders := demoS2.orders ++ [demoSellOrder] },
        demoS2.orders.length) :=
  (place_order_sell_reservation demoS2 demoSellOrder demoCourse rfl rfl).2
    ⟨10, 0⟩ demoS2_u1_balance (by decide)

/-- C6 witness: the demo pair (buy at 3, sell at 2) matches, and the
demo match executed at the sell order's price 2. -/
theorem match_trade_sell_price_witness :
    (∃ s' r, match_trade demoS4 1 0 5 = .ok (s', r)) ∧
    (⟨5, 2⟩ : TradeResult).price_usd = demoSellOrder.price_usd :=
  ⟨(match_trade_sell_price demoS4 1 0 5 demoBuyOrder demoSellOrder
      demoS4_buy_lookup demoS4_sell_lookup rfl rfl rfl).1,
   (match_trade_sell_price demoS4 1 0 5 demoBuyOrder demoSellOrder
      demoS4_buy_lookup demoS4_sell_lookup rfl rfl rfl).2 demoS5 ⟨5, 2⟩
     demoS5_eq⟩

/-- C7 witness: re-matching the fully filled demo pair fills 0 and keeps
"u1"'s balance values. -/
theorem match_trade_filled_pair_noop_witness :
    (⟨0, 2⟩ : TradeResult).filled_amount = 0 ∧
    (effBal demoRematch "u1" "c1").amount = (effBal demoS5 "u1" "c1").amount ∧
    (effBal demoRematch "u1" "c1").reserved
      = (effBal demoS5 "u1" "c1").reserved := by
  have h := @match_trade_filled_pair_noop demoS5 1 0 3 demoRematch ⟨0, 2⟩
    ⟨"c1", "u2", "buy", 3, 0, "open"⟩ ⟨"c1", "u1", "sell", 2, 0, "open"⟩
    (reachable_of_reachableNN reachableNN_demoS5)
    demoS5_buy_lookup demoS5_sell_lookup (.inl rfl) (by decide) demoRematch_eq
  exact ⟨h.1, (h.2 "u1" "c1").1, (h.2 "u1" "c1").2⟩

/-- C8 witness: the demo match adds 5 * 2 * 0.005 = 0.05 USD of fee
revenue to the course token record. -/
theorem match_trade_fee_accrual_witness :
    demoS5.tokens "c1" = some ⟨"c1", "CRS", 1000, 10, "0xTREAS", 990,
      50 + ((5 : Int) : Rat) * 2 * (5 / 1000)⟩ :=
  (@match_trade_fee_accrual demoS4 1 0 5 demoS5 ⟨5, 2⟩ demoBuyOrder
    demoSellOrder ⟨"c1", "CRS", 1000, 10, "0xTREAS", 990, 50⟩
    demoS4_buy_lookup demoS4_sell_lookup demoS4_token demoS5_eq).1

/-- C9 witness: requesting -5 against the demo orders succeeds, fills
-5, and moves balances backwards. -/
theorem match_trade_negative_request_witness :
    ∃ s', match_trade demoNeg1 1 0 (-5)
        = .ok (s', ⟨-5, demoSellOrder.price_usd⟩) ∧
      s'.orders[1]? = some { demoNegBuy with
        amount := demoNegBuy.amount - (-5) } ∧
      demoNegBuy.amount < demoNegBuy.amount - (-5) ∧
      s'.orders[0]? = some { demoSellOrder with
        amount := demoSellOrder.amount - (-5) } ∧
      demoSellOrder.amount < demoSellOrder.amount - (-5) ∧
      (effBal s' demoSellOrder.user_id demoSellOrder.course_id).reserved
        = (effBal demoNeg1 demoSellOrder.user_id
            demoSellOrder.course_id).reserved - (-5) ∧
      (effBal demoNeg1 demoSellOrder.user_id
          demoSellOrder.course_id).reserved
        < (effBal s' demoSellOrder.user_id
            demoSellOrder.course_id).reserved ∧
      (effBal s' demoNegBuy.user_id demoNegBuy.course_id).amount
        = (effBal demoNeg1 demoNegBuy.user_id
            demoNegBuy.course_id).amount + (-5) ∧
      (effBal s' demoNegBuy.user_id demoNegBuy.course_id).amount
        < (effBal demoNeg1 demoNegBuy.user_id
            demoNegBuy.course_id).amount :=
  match_trade_negative_request demoNeg1 1 0 (-5) demoNegBuy demoSellOrder
    demoNeg1_buy_lookup demoNeg1_sell_lookup rfl rfl rfl
    (by decide) (by decide) (by decide)

/-- C10 witness: the fully filled demo sell order keeps status "open"
and all non-amount fields across the demo match. -/
theorem step_never_mutates_status_witness :
    ∃ o' : OrderRec, demoS5.orders[0]? = some o' ∧
      o'.status = demoSellOrder.status ∧ o'.side = demoSellOrder.side ∧
      o'.course_id = demoSellOrder.course_id ∧
      o'.user_id = demoSellOrder.user_id ∧
      o'.price_usd = demoSellOrder.price_usd :=
  (step_never_mutates_status
      (@Step.trade demoS4 1 0 5 demoS5 ⟨5, 2⟩ demoS5_eq)).1
    0 demoSellOrder demoS4_sell_lookup
